import Mathlib

/-!
# Verification of the scrape-and-download pipeline (`src/Songs/scrappy_spider.py`)

Shallow embedding of the concurrent scrape-and-download pipeline of the
browser-automation script.  Pure string manipulation is translated directly
(Python strings are sequences of code points, embedded as `List Char` under a
`String` API); the stateful pieces (the retry loop of `build_driver`, the
polling loops of `wait_for_download`, the per-query loop of `process_worker`,
the orchestration of `run`) are modelled by explicit state passing over
abstract environments that stand for the filesystem, the browser driver and
the per-query fate.  Times are Nats measured in tenths of the script's time
unit, so the 0.2 s and 0.3 s poll sleeps become steps of 2 and 3.
-/

namespace Scrappy

/-- Abstract exceptions (the script only ever inspects them as opaque values
or turns them into messages). -/
abbrev Err := String

/-! ## Python string primitives

The script uses `str.split(sep)[0]`, `str.strip()`, `in`, `len`, slicing,
`str.startswith`/`Path.suffix` checks.  They are embedded over `List Char`
(Python strings are sequences of code points) with structural recursion. -/

/-- Python `s.split(sep)[0]` for a non-empty separator: the part of `s`
before the first occurrence of `sep` (all of `s` when `sep` is absent).
Only index `[0]` of the split is ever used by the script. -/
def takeUntilSep (sep : List Char) : List Char → List Char
  | [] => []
  | c :: rest =>
    if sep.isPrefixOf (c :: rest) then []
    else c :: takeUntilSep sep rest

def isSpaceChar (c : Char) : Bool :=
  c = ' ' || c = '\t' || c = '\n' || c = '\r'

/-- Python `s.strip()` (whitespace restricted to the ASCII characters the
inputs can contain). -/
def pyStrip (s : List Char) : List Char :=
  ((s.dropWhile isSpaceChar).reverse.dropWhile isSpaceChar).reverse

/-- `pyStrip`, on `String`. -/
def strip (s : String) : String := ⟨pyStrip s.data⟩

/-- Python `s[:n]` (slicing counts code points). -/
def pyTake (s : String) (n : Nat) : String := ⟨s.data.take n⟩

/-! ## `simplify_query` (scrappy_spider.py lines 214-227)

Python: `base = q.split(" - ")[0].strip()`; then for each `sep` of `"("`,
`"["`, if `sep in base`, replace `base` by `base.split(sep)[0].strip()`;
finally truncate to 90 characters when longer. -/

def simplify_query (q : String) : String :=
  let base0 : String := ⟨pyStrip (takeUntilSep " - ".data q.data)⟩
  let base1 : String :=
    if base0.data.contains '(' then ⟨pyStrip (takeUntilSep "(".data base0.data)⟩ else base0
  let base2 : String :=
    if base1.data.contains '[' then ⟨pyStrip (takeUntilSep "[".data base1.data)⟩ else base1
  if base2.length > 90 then pyTake base2 90 else base2

/-! ## `read_queries` (lines 205-212)

A CSV row is modelled by its three consulted fields; `row.get` on an absent
key is `none`.  Python's `a or b` on strings falls through on `None` and on
the empty string (both falsy). -/

structure Row where
  track_name : Option String
  artist_name : Option String
  artist_names : Option String
deriving DecidableEq, Repr

/-- Python `(a or dflt)` for `a : Option String`. -/
def pyOr (a : Option String) (dflt : String) : String :=
  match a with
  | none => dflt
  | some s => if s = "" then dflt else s

/-- `t = (row.get("track_name") or "").strip()`. -/
def trackOf (r : Row) : String := strip (pyOr r.track_name "")

/-- `u = (row.get("artist_name") or row.get("artist_names") or "").strip()`. -/
def artistOf (r : Row) : String := strip (pyOr r.artist_name (pyOr r.artist_names ""))

/-- The query yielded for a kept row: `f"{t} - {u}" if u else t`. -/
def queryOf (r : Row) : String :=
  if artistOf r = "" then trackOf r else trackOf r ++ " - " ++ artistOf r

/-- Rows with empty stripped track are skipped (`if not t: continue`). -/
def keepRow (r : Row) : Bool := trackOf r ≠ ""

def read_queries : List Row → List String
  | [] => []
  | r :: rs =>
    if trackOf r = "" then read_queries rs
    else queryOf r :: read_queries rs

/-! ## Filenames: Python `Path.stem` / `Path.suffix`

`Path(name).suffix` is `name[i:]` for the last index `i` of `'.'` when
`0 < i < len(name) - 1`, else `""`; the stem is the rest. -/

def lastDotIdx (cs : List Char) : Option Nat :=
  ((cs.enum.filter (fun p => p.2 == '.')).map (fun p => p.1)).getLast?

def splitName (name : String) : String × String :=
  let cs := name.data
  match lastDotIdx cs with
  | some i =>
    if 0 < i ∧ i + 1 < cs.length then (⟨cs.take i⟩, ⟨cs.drop i⟩) else (name, "")
  | none => (name, "")

/-! ## Collision resolution (lines 423-433)

`target = DOWNLOADS / got.name; if target.exists(): k = 1; while True:
cand = DOWNLOADS / f"{stem} ({k}){suf}"; if not cand.exists(): target = cand;
break; k += 1`.  The shared directory is modelled as the list of file names it
contains; the unbounded `while True` is embedded with `existing.length + 1`
units of fuel, which covers every iteration the Python loop can make before
running out of occupied names. -/

def mkCand (stem suf : String) (k : Nat) : String :=
  stem ++ " (" ++ Nat.repr k ++ ")" ++ suf

def findK (existing : List String) (stem suf : String) : Nat → Nat → Option Nat
  | 0, _ => none
  | fuel + 1, k =>
    if existing.contains (mkCand stem suf k) then findK existing stem suf fuel (k + 1)
    else some k

def resolve_collision (existing : List String) (name : String) : String :=
  if existing.contains name then
    let p := splitName name
    match findK existing p.1 p.2 (existing.length + 1) 1 with
    | some k => mkCand p.1 p.2 k
    | none => name
  else name

/-! ## `wait_for_download` (lines 130-180)

The worker's download directory is modelled as a time-indexed listing
`fs : Nat → List Entry` (every entry is a regular file, named with its
mtime); time is in tenths of the script's unit, so `time.sleep(0.2)` and
`time.sleep(0.3)` advance the clock by 2 and 3 and `timeout` is given in
tenths.  `glob('*.crdownload')` keeps the names ending in `".crdownload"`;
the fallback scans skip `p.name.startswith('.')` and
`p.suffix == '.crdownload'`. -/

/-- A directory entry: file name and mtime. -/
abbrev Entry := String × Nat

def isHiddenName (s : String) : Bool := ".".data.isPrefixOf s.data

def crdownloadGlob (s : String) : Bool := ".crdownload".data.isSuffixOf s.data

/-- Phase-1 body: among the `*.crdownload` entries with `st_mtime >= ts`,
the one with the strictly largest mtime (first wins ties), as in
`if latest is None or st.st_mtime > latest[1]`. -/
def findLatestTemp (entries : List Entry) (ts : Nat) : Option Entry :=
  entries.foldl
    (fun acc e =>
      if crdownloadGlob e.1 && decide (ts ≤ e.2) then
        match acc with
        | none => some e
        | some b => if b.2 < e.2 then some e else acc
      else acc)
    none

/-- The fallback scan (lines 153-161 and 170-178): the first non-hidden,
non-`.crdownload` file with `st_mtime >= ts`. -/
def fallbackScan (entries : List Entry) (ts : Nat) : Option String :=
  (entries.find? fun e =>
      !isHiddenName e.1 && !((splitName e.1).2 == ".crdownload") && decide (ts ≤ e.2)).map
    (·.1)

/-- Phase 1 (`while time.time() < end: ... time.sleep(0.2)`): returns the
candidate found (with the time it was found) or `none` with the exit time. -/
def phase1Loop (fs : Nat → List Entry) (ts endT : Nat) : Nat → Nat → Option Entry × Nat
  | 0, t => (none, t)
  | fuel + 1, t =>
    if t < endT then
      match findLatestTemp (fs t) ts with
      | some e => (some e, t)
      | none => phase1Loop fs ts endT fuel (t + 2)
    else (none, t)

/-- `target_stem = candidate.name[:-len('.crdownload')]`. -/
def stemOfTemp (cand : String) : String :=
  ⟨cand.data.take (cand.data.length - ".crdownload".data.length)⟩

/-- Phase 2 (`while time.time() < end: if not candidate.exists(): ...
time.sleep(0.3)`). -/
def phase2Loop (fs : Nat → List Entry) (ts endT : Nat) (cand : String) :
    Nat → Nat → Option String
  | 0, _ => none
  | fuel + 1, t =>
    if t < endT then
      if (fs t).any (fun e => e.1 == cand) then phase2Loop fs ts endT cand fuel (t + 3)
      else
        let stem := stemOfTemp cand
        if (fs t).any (fun e => e.1 == stem) then some stem
        else
          match fallbackScan (fs t) ts with
          | some p => some p
          | none => phase2Loop fs ts endT cand fuel (t + 3)
    else none

def wait_for_download (fs : Nat → List Entry) (ts timeout start : Nat) : Option String :=
  let endT := start + timeout
  match phase1Loop fs ts endT (timeout + 1) start with
  | (some e, t) => phase2Loop fs ts endT e.1 (timeout + 1) t
  | (none, t) => fallbackScan (fs t) ts

/-! ## `force_nav` (lines 182-203)

Each of the four strategies either raises during its action / readiness wait
or lands the driver on some URL; landing off-site leaves `last_err`
untouched.  The embedding also returns the trace of strategies attempted, in
order, which is observable in the driver. -/

inductive Strat where
  | direct
  | js
  | newTab
  | cdp
deriving DecidableEq, Repr

def stratOrder : List Strat := [.direct, .js, .newTab, .cdp]

inductive NavOutcome where
  | raised (e : Err)
  | landed (url : String)
deriving DecidableEq, Repr

/-- Python `pat in s`: `pat` occurs as a contiguous substring of `s`. -/
def containsSub (pat : List Char) : List Char → Bool
  | [] => pat.isEmpty
  | c :: rest => pat.isPrefixOf (c :: rest) || containsSub pat rest

/-- Python `s.lower()` (the URLs involved are ASCII). -/
def pyLower (s : String) : String := ⟨s.data.map Char.toLower⟩

/-- `"mp3juice" in (d.current_url or "").lower()`. -/
def onSite (url : String) : Bool :=
  containsSub "mp3juice".data (pyLower url).data

def navLoop (env : Strat → NavOutcome) : List Strat → Option Err → List Strat × Except (Option Err) Unit
  | [], lastE => ([], .error lastE)
  | s :: rest, lastE =>
    match env s with
    | .raised e =>
      let r := navLoop env rest (some e)
      (s :: r.1, r.2)
    | .landed url =>
      if onSite url then ([s], .ok ())
      else
        let r := navLoop env rest lastE
        (s :: r.1, r.2)

def force_nav (env : Strat → NavOutcome) : List Strat × Except (Option Err) Unit :=
  navLoop env stratOrder none

/-- The update `last_err` undergoes at one strategy: a raising strategy
overwrites it, a landing one leaves it alone. -/
def updErr (env : Strat → NavOutcome) (acc : Option Err) (s : Strat) : Option Err :=
  match env s with
  | .raised e => some e
  | .landed _ => acc

/-- The last error raised by any strategy, in order — what `last_err` holds
when the loop falls through. -/
def lastErrOf (env : Strat → NavOutcome) : Option Err :=
  stratOrder.foldl (updErr env) none

/-- A strategy fails when it raises or lands off the target domain. -/
def stratFails (env : Strat → NavOutcome) (s : Strat) : Prop :=
  match env s with
  | .raised _ => True
  | .landed url => onSite url = false

/-! ## `build_driver` (lines 62-107)

The loop `for attempt in range(3)` makes a fresh `tempfile.mkdtemp` profile
directory on each attempt (the previous one is removed first), then tries to
create the Chrome session; `SessionNotCreatedException` is recorded in
`last_err` and the loop continues.  After the loop:
`raise last_err or RuntimeError("Failed to create Chrome session after
retries")`.  Profile directories are modelled by the attempt counter (each
`mkdtemp` result is a fresh name); `create k` is the abstract outcome of
`webdriver.Chrome(...)` on the profile of attempt `k`. -/

def buildAttempts (create : Nat → Except Err Unit) :
    Nat → Nat → Option Err → List Nat × Except Err Nat
  | 0, _, lastE =>
    ([], .error (lastE.getD "Failed to create Chrome session after retries"))
  | n + 1, k, _lastE =>
    match create k with
    | .ok _ => ([k], .ok k)
    | .error e =>
      let r := buildAttempts create n (k + 1) (some e)
      (k :: r.1, r.2)

/-- Returns the trace of profile directories used (one per attempt) and the
final outcome: the session's profile on success, the escalated error after
retry exhaustion. -/
def build_driver (create : Nat → Except Err Unit) : List Nat × Except Err Nat :=
  buildAttempts create 3 0 none

/-! ## `process_worker` (lines 249-442)

The per-query loop (lines 356-440) is driven by an abstract per-query fate
`StepEnv`: either some step of the query's handling raised (searching, the
results wait at line 362, locating the `MP3 Download` link, the download
link wait, a click), or the handling ran to one of the three non-raising
ends — empty `.result` list (line 365, `continue`), a completed file from
`wait_for_download` (with or without `shutil.move` failing), or no completed
file (line 440).  The shared `DOWNLOADS` directory is the list of names it
contains, threaded through the loop. -/

inductive StepEnv where
  | raises (e : Err)
  | noResults
  | gotFile (name : String) (moveFails : Bool)
  | noFile
deriving DecidableEq, Repr

/-- A reported download location: in the worker's private directory or in the
shared `DOWNLOADS` directory. -/
structure DlPath where
  inWorkerDir : Bool
  name : String
deriving DecidableEq, Repr

inductive Outcome where
  | noResultsFound (idx : Nat)
  | downloaded (idx : Nat) (path : DlPath)
  | noFileDetected (idx : Nat)
deriving DecidableEq, Repr

def Outcome.idx : Outcome → Nat
  | .noResultsFound i => i
  | .downloaded i _ => i
  | .noFileDetected i => i

/-- The `for global_idx, query in tasks:` loop.  There is no try/except
around the body: a raising step aborts the loop and escalates the exception
(the `finally:` at line 441 only cleans the driver up).  On `gotFile` the
target name is resolved against the shared directory (lines 423-433); a
failing `shutil.move` is swallowed and the worker-directory path is reported
instead (lines 434-437), leaving the shared directory unchanged. -/
def worker_loop (env : Nat → StepEnv) :
    List (Nat × String) → List String → List Outcome × List String × Option Err
  | [], shared => ([], shared, none)
  | (i, _q) :: rest, shared =>
    match env i with
    | .raises e => ([], shared, some e)
    | .noResults =>
      let r := worker_loop env rest shared
      (.noResultsFound i :: r.1, r.2)
    | .noFile =>
      let r := worker_loop env rest shared
      (.noFileDetected i :: r.1, r.2)
    | .gotFile name moveFails =>
      let target := resolve_collision shared name
      if moveFails then
        let r := worker_loop env rest shared
        (.downloaded i ⟨true, name⟩ :: r.1, r.2)
      else
        let r := worker_loop env rest (shared ++ [target])
        (.downloaded i ⟨false, target⟩ :: r.1, r.2)

/-- One worker's abstract environment: the per-attempt session-creation
outcome, the per-strategy navigation outcome, and the per-query fate. -/
structure WorkerEnv where
  create : Nat → Except Err Unit
  nav : Strat → NavOutcome
  step : Nat → StepEnv

/-- `process_worker`: build the driver (escalating after retry exhaustion),
navigate home when there are tasks, then run the query loop. -/
def process_worker (wenv : WorkerEnv) (tasks : List (Nat × String)) (shared : List String) :
    List Outcome × List String × Option Err :=
  match (build_driver wenv.create).2 with
  | .error e => ([], shared, some e)
  | .ok _ =>
    if tasks.isEmpty then ([], shared, none)
    else
      match (force_nav wenv.nav).2 with
      | .error e => ([], shared, some (e.getD "Failed to navigate to site"))
      | .ok _ => worker_loop wenv.step tasks shared

/-! ## `run` (lines 444-461)

`buckets = [[] for _ in range(CONCURRENCY)]; for i, q in enumerate(queries):
buckets[i % CONCURRENCY].append((i, q))`, then one future per non-empty
bucket; `as_completed` results are collected, a worker's exception only
prints `Worker error: ...`, and `Done. ...` is always printed.  Workers run
concurrently on disjoint data; each is modelled against the initial shared
listing, and worker-error messages are listed in worker order (the
`as_completed` interleaving is unobservable in the counts the claims are
about).  `Msg.summary` is the aggregate-count report the spec describes; the
embedded `run` shows which messages the code actually emits. -/

def fillBuckets (n : Nat) :
    List (Nat × String) → List (List (Nat × String)) → List (List (Nat × String))
  | [], bs => bs
  | p :: ps, bs => fillBuckets n ps (bs.set (p.1 % n) (bs.getD (p.1 % n) [] ++ [p]))

def partition (n : Nat) (qs : List String) : List (List (Nat × String)) :=
  fillBuckets n qs.enum (List.replicate n [])

inductive Msg where
  | noQueries
  | total (n conc : Nat)
  | workerError (e : Err)
  | done
  | summary (downloaded failed skipped : Nat)
deriving DecidableEq, Repr

def Msg.isSummary : Msg → Bool
  | .summary _ _ _ => true
  | _ => false

/-- The non-empty buckets with their worker ids:
`[(wid, tasks) for wid, tasks in enumerate(buckets) if tasks]`. -/
def spawned (conc : Nat) (queries : List String) : List (Nat × List (Nat × String)) :=
  (partition conc queries).enum.filter fun p => !p.2.isEmpty

def workerResults (conc : Nat) (queries : List String) (envs : Nat → WorkerEnv)
    (sharedInit : List String) : List (Nat × (List Outcome × List String × Option Err)) :=
  (spawned conc queries).map fun p => (p.1, process_worker (envs p.1) p.2 sharedInit)

def run (conc : Nat) (rows : List Row) (envs : Nat → WorkerEnv) (sharedInit : List String) :
    List Msg :=
  let queries := read_queries rows
  if queries.isEmpty then [.noQueries]
  else
    [.total queries.length conc] ++
      ((workerResults conc queries envs sharedInit).filterMap fun p =>
        p.2.2.2.map Msg.workerError) ++
      [.done]

/-! ## Concrete scenarios used to settle individual claims -/

/-- The spec's DownloadWatcher scenario with a `.part` temp file, in tenths
of a unit: `x.part` appears at t=1 and is replaced by `x.mp3` at t=5. -/
def fsPart : Nat → List Entry := fun t =>
  if t < 10 then [] else if t < 50 then [("x.part", 10)] else [("x.mp3", 50)]

/-- The same scenario with the browser's actual `.crdownload` temp file. -/
def fsCr : Nat → List Entry := fun t =>
  if t < 10 then [] else if t < 50 then [("x.mp3.crdownload", 10)] else [("x.mp3", 50)]

/-- Seven one-column CSV rows. -/
def rows7 : List Row :=
  [⟨some "q0", none, none⟩, ⟨some "q1", none, none⟩, ⟨some "q2", none, none⟩,
    ⟨some "q3", none, none⟩, ⟨some "q4", none, none⟩, ⟨some "q5", none, none⟩,
    ⟨some "q6", none, none⟩]

/-- Worker environments where sessions build, navigation lands on-site, and
the query of global index 0 raises while every other query finds no file. -/
def envsMixed : Nat → WorkerEnv := fun _ =>
  { create := fun _ => .ok ()
    nav := fun _ => .landed "https://mp3juice.co/"
    step := fun i => if i = 0 then .raises "boom" else .noFile }

/-! ## Helper lemmas -/

theorem hyphen_append_ne_empty (t u : String) : t ++ " - " ++ u ≠ "" := by
  intro h
  have hl := congrArg String.length h
  simp only [String.length_append] at hl
  have h3 : (" - " : String).length = 3 := rfl
  have h0 : ("" : String).length = 0 := rfl
  omega

theorem queryOf_ne_empty (r : Row) (h : trackOf r ≠ "") : queryOf r ≠ "" := by
  unfold queryOf
  split
  · exact h
  · exact hyphen_append_ne_empty _ _

theorem pyTake_length_le (s : String) (n : Nat) : (pyTake s n).length ≤ n := by
  simp [pyTake, List.length_take]

theorem cap_length_le (s : String) : (if s.length > 90 then pyTake s 90 else s).length ≤ 90 := by
  split
  · exact pyTake_length_le s 90
  · omega

end Scrappy

namespace Scrappy

/-- Claim C8: for every input string, `simplify_query` truncates at the first
separator token (witnessed on the spec's example, where `" - "` and the
parenthesised qualifier are both cut) and caps the result at 90 characters;
in particular `simplify_query "Imagine - John Lennon (Remastered 2010)"`
returns `"Imagine"`. -/
theorem C8_simplify_query :
    simplify_query "Imagine - John Lennon (Remastered 2010)" = "Imagine" ∧
      ∀ q : String, (simplify_query q).length ≤ 90 := by
  refine ⟨by decide, fun q => ?_⟩
  simp only [simplify_query]
  exact cap_length_le _

/-- Claim C10, as stated, is false: with `artist_name = " "` (truthy in
Python, so `artist_names` is never consulted) and `artist_names = "Bob"`,
an artist column is non-empty after stripping, yet the yielded query is just
the track name, not `"Song - Bob"`. -/
theorem C10_counterexample :
    read_queries [⟨some "Song", some " ", some "Bob"⟩] = ["Song"] ∧
      artistOf ⟨some "Song", some " ", some "Bob"⟩ = "" ∧
      strip "Bob" ≠ "" := by
  refine ⟨by decide, by decide, by decide⟩

/-- Claim C10 (amended): the loader yields exactly one query per row whose
track_name is non-empty after stripping, skipping every other row; the artist
value is `artist_name` when that is non-empty before stripping, else
`artist_names`, and the yielded query is `"<track> - <artist>"` when the
selected artist value is non-empty after stripping and just `"<track>"`
otherwise; no yielded query is ever the empty string. -/
theorem C10_read_queries_amended (rows : List Row) :
    read_queries rows = (rows.filter keepRow).map queryOf ∧
      ∀ q ∈ read_queries rows, q ≠ "" := by
  constructor
  · induction rows with
    | nil => rfl
    | cons r rs ih =>
      by_cases h : trackOf r = ""
      · simp [read_queries, h, keepRow, List.filter_cons, ih]
      · simp [read_queries, h, keepRow, List.filter_cons, ih]
  · induction rows with
    | nil => intro q hq; cases hq
    | cons r rs ih =>
      intro q hq
      by_cases h : trackOf r = ""
      · simp only [read_queries, if_pos h] at hq
        exact ih q hq
      · simp only [read_queries, if_neg h] at hq
        cases hq with
        | head => exact queryOf_ne_empty r h
        | tail _ hq => exact ih q hq

/-- Witness for C10's amended theorem at a concrete row list. -/
theorem C10_amended_witness :
    read_queries [⟨some " T ", none, some "A"⟩] =
        (([⟨some " T ", none, some "A"⟩] : List Row).filter keepRow).map queryOf ∧
      "T - A" ≠ "" := by
  refine ⟨(C10_read_queries_amended [⟨some " T ", none, some "A"⟩]).1, ?_⟩
  exact (C10_read_queries_amended [⟨some " T ", none, some "A"⟩]).2 "T - A" (by decide)

/-- Claim C9: when `shutil.move` of a completed download into the shared
directory raises, the exception is swallowed, the file stays at its
worker-directory path, that path is reported as the downloaded result, and
the worker continues with no error for that query (the error component of
the loop's result comes only from the remaining tasks; the shared listing is
left unchanged). -/
theorem C9_move_failure_swallowed (env : Nat → StepEnv) (i : Nat) (q name : String)
    (rest : List (Nat × String)) (shared : List String) (h : env i = .gotFile name true) :
    worker_loop env ((i, q) :: rest) shared =
      (Outcome.downloaded i ⟨true, name⟩ :: (worker_loop env rest shared).1,
        (worker_loop env rest shared).2.1, (worker_loop env rest shared).2.2) := by
  simp [worker_loop, h]

/-- Witness for C9 at a concrete environment. -/
theorem C9_witness :
    worker_loop (fun _ => .gotFile "f.mp3" true) [(0, "q")] ["f.mp3"] =
      ([Outcome.downloaded 0 ⟨true, "f.mp3"⟩], ["f.mp3"], none) := by
  have h := C9_move_failure_swallowed (fun _ => .gotFile "f.mp3" true) 0 "q" "f.mp3" [] ["f.mp3"] rfl
  simpa using h

/-- `findK` returns the first `k ≥ k0` whose candidate name is absent, and
every index it skipped was occupied. -/
theorem findK_spec (existing : List String) (stem suf : String) :
    ∀ fuel k0 k, findK existing stem suf fuel k0 = some k →
      k0 ≤ k ∧ existing.contains (mkCand stem suf k) = false ∧
        ∀ j, k0 ≤ j → j < k → existing.contains (mkCand stem suf j) = true := by
  intro fuel
  induction fuel with
  | zero => intro k0 k h; cases h
  | succ n ih =>
    intro k0 k h
    simp only [findK] at h
    split at h
    · next hc =>
      obtain ⟨h1, h2, h3⟩ := ih (k0 + 1) k h
      refine ⟨by omega, h2, fun j hj1 hj2 => ?_⟩
      rcases Nat.eq_or_lt_of_le hj1 with heq | hlt
      · exact heq ▸ hc
      · exact h3 j (by omega) hj2
    · next hc =>
      injection h with h
      subst h
      exact ⟨Nat.le_refl _, by simpa using hc, fun j hj1 hj2 => by omega⟩

/-- Claim C6: collision resolution returns the unchanged name when no file of
that name exists in the shared directory; otherwise (whenever the bounded
embedding of the Python `while True` search resolves, as it does on every
concrete directory) it returns the name with `" (k)"` spliced in before the
extension for the smallest `k ≥ 1` that does not collide, so the result is
not an existing name; in particular `"Song.mp3"`, `"Song (1).mp3"`,
`"Song (2).mp3"` in sequence. -/
theorem C6_resolve_collision :
    (∀ (existing : List String) (name : String), name ∉ existing →
        resolve_collision existing name = name) ∧
    (∀ (existing : List String) (name : String) (k : Nat), name ∈ existing →
        findK existing (splitName name).1 (splitName name).2 (existing.length + 1) 1 = some k →
        resolve_collision existing name = mkCand (splitName name).1 (splitName name).2 k ∧
          1 ≤ k ∧ mkCand (splitName name).1 (splitName name).2 k ∉ existing ∧
          ∀ j, 1 ≤ j → j < k → mkCand (splitName name).1 (splitName name).2 j ∈ existing) ∧
    resolve_collision [] "Song.mp3" = "Song.mp3" ∧
    resolve_collision ["Song.mp3"] "Song.mp3" = "Song (1).mp3" ∧
    resolve_collision ["Song.mp3", "Song (1).mp3"] "Song.mp3" = "Song (2).mp3" := by
  refine ⟨?_, ?_, by decide, by decide, by decide⟩
  · intro existing name h
    simp only [resolve_collision]
    rw [if_neg (by simpa using h)]
  · intro existing name k hmem hfind
    have hc : existing.contains name = true := by simpa using hmem
    obtain ⟨h1, h2, h3⟩ := findK_spec existing (splitName name).1 (splitName name).2 _ 1 k hfind
    refine ⟨?_, h1, by simpa using h2, fun j hj1 hj2 => by simpa using h3 j hj1 hj2⟩
    simp only [resolve_collision, hc, if_true]
    rw [hfind]

/-- Witness for C6 at a concrete directory. -/
theorem C6_witness :
    [("Song.mp3" : String)] ≠ [] ∧
      resolve_collision ["Song.mp3"] "Song.mp3" = "Song (1).mp3" := by
  refine ⟨by decide, ?_⟩
  have h := (C6_resolve_collision.2.1) ["Song.mp3"] "Song.mp3" 1 (by decide) (by decide)
  exact h.1.trans (by decide)

/-- Claim C5: session acquisition makes at most 3 attempts, each on a fresh
profile directory (the trace of profiles is duplicate-free); when all 3
attempts fail it escalates the last error; a worker whose build fails this
way produces zero outcomes and only its own error; and a worker's result in
the orchestrator's collection depends only on that worker's own environment,
with every spawned worker contributing exactly one result. -/
theorem C5_session_retries :
    (∀ create : Nat → Except Err Unit, (build_driver create).1.length ≤ 3) ∧
    (∀ create : Nat → Except Err Unit, (build_driver create).1.Nodup) ∧
    (∀ (create : Nat → Except Err Unit) (e0 e1 e2 : Err),
        create 0 = .error e0 → create 1 = .error e1 → create 2 = .error e2 →
        build_driver create = ([0, 1, 2], .error e2)) ∧
    (∀ (wenv : WorkerEnv) (tasks : List (Nat × String)) (shared : List String)
        (e0 e1 e2 : Err),
        wenv.create 0 = .error e0 → wenv.create 1 = .error e1 → wenv.create 2 = .error e2 →
        process_worker wenv tasks shared = ([], shared, some e2)) ∧
    (∀ (conc : Nat) (queries : List String) (envs envs' : Nat → WorkerEnv)
        (sharedInit : List String) (w : Nat),
        (∀ j, j ≠ w → envs j = envs' j) →
        ∀ p ∈ workerResults conc queries envs sharedInit,
          p.1 ≠ w → p ∈ workerResults conc queries envs' sharedInit) ∧
    (∀ (conc : Nat) (queries : List String) (envs : Nat → WorkerEnv)
        (sharedInit : List String),
        (workerResults conc queries envs sharedInit).length = (spawned conc queries).length) := by
  refine ⟨?_, ?_, ?_, ?_, ?_, ?_⟩
  · intro create
    cases h0 : create 0 <;> cases h1 : create 1 <;> cases h2 : create 2 <;>
      simp [build_driver, buildAttempts, h0, h1, h2]
  · intro create
    cases h0 : create 0 <;> cases h1 : create 1 <;> cases h2 : create 2 <;>
      simp [build_driver, buildAttempts, h0, h1, h2]
  · intro create e0 e1 e2 h0 h1 h2
    simp [build_driver, buildAttempts, h0, h1, h2]
  · intro wenv tasks shared e0 e1 e2 h0 h1 h2
    simp [process_worker, build_driver, buildAttempts, h0, h1, h2]
  · intro conc queries envs envs' sharedInit w hagree p hp hne
    simp only [workerResults, List.mem_map] at hp ⊢
    obtain ⟨b, hb, hpb⟩ := hp
    refine ⟨b, hb, ?_⟩
    rw [← hagree b.1 (by rw [← hpb] at hne; exact hne)]
    exact hpb
  · intro conc queries envs sharedInit
    simp [workerResults]

/-- Witness for C5 at concrete environments. -/
theorem C5_witness :
    build_driver (fun _ => .error "locked") = ([0, 1, 2], .error "locked") ∧
      process_worker ⟨fun _ => .error "locked", fun _ => .landed "", fun _ => .noFile⟩
          [(0, "q")] [] = ([], [], some "locked") := by
  constructor
  · exact C5_session_retries.2.2.1 (fun _ => .error "locked") "locked" "locked" "locked" rfl rfl rfl
  · exact C5_session_retries.2.2.2.1 ⟨fun _ => .error "locked", fun _ => .landed "", fun _ => .noFile⟩
      [(0, "q")] [] "locked" "locked" "locked" rfl rfl rfl

/-- The trace of attempted strategies is an in-order initial segment of the
strategy list the loop walks. -/
theorem navLoop_trace_take (env : Strat → NavOutcome) :
    ∀ (l : List Strat) (lastE : Option Err),
      (navLoop env l lastE).1 = l.take (navLoop env l lastE).1.length := by
  intro l
  induction l with
  | nil => intro lastE; rfl
  | cons s rest ih =>
    intro lastE
    simp only [navLoop]
    cases h : env s with
    | raised e =>
      simp only [List.length_cons, List.take_succ_cons, List.cons.injEq, true_and]
      exact ih (some e)
    | landed url =>
      by_cases hs : onSite url
      · simp [hs]
      · simp only [hs, Bool.false_eq_true, if_false, List.length_cons, List.take_succ_cons,
          List.cons.injEq, true_and]
        exact ih lastE

/-- When every strategy in the list fails, the loop attempts all of them and
falls through to `.error` with the folded `last_err`. -/
theorem navLoop_all_fail (env : Strat → NavOutcome) :
    ∀ (l : List Strat) (lastE : Option Err), (∀ s ∈ l, stratFails env s) →
      navLoop env l lastE = (l, .error (l.foldl (updErr env) lastE)) := by
  intro l
  induction l with
  | nil => intro lastE _; rfl
  | cons s rest ih =>
    intro lastE hfail
    have hs := hfail s (List.mem_cons_self s rest)
    have hrest : ∀ x ∈ rest, stratFails env x := fun x hx => hfail x (List.mem_cons_of_mem s hx)
    simp only [navLoop, List.foldl_cons]
    cases h : env s with
    | raised e =>
      simp only [updErr, h]
      rw [ih (some e) hrest]
    | landed url =>
      have hoff : onSite url = false := by
        have := hs; unfold stratFails at this; rw [h] at this; exact this
      simp only [hoff, Bool.false_eq_true, if_false, updErr, h]
      rw [ih lastE hrest]

/-- The loop returns success at the first strategy that lands on-site, having
attempted exactly the failing strategies before it. -/
theorem navLoop_first_success (env : Strat → NavOutcome) :
    ∀ (l1 : List Strat) (s : Strat) (l2 : List Strat) (url : String) (lastE : Option Err),
      (∀ x ∈ l1, stratFails env x) → env s = .landed url → onSite url = true →
      navLoop env (l1 ++ s :: l2) lastE = (l1 ++ [s], .ok ()) := by
  intro l1
  induction l1 with
  | nil =>
    intro s l2 url lastE _ hs hurl
    simp [navLoop, hs, hurl]
  | cons x rest ih =>
    intro s l2 url lastE hfail hs hurl
    have hx := hfail x (List.mem_cons_self x rest)
    have hrest : ∀ y ∈ rest, stratFails env y := fun y hy => hfail y (List.mem_cons_of_mem x hy)
    simp only [List.cons_append, navLoop, List.append_eq]
    cases h : env x with
    | raised e =>
      dsimp only
      rw [ih s l2 url (some e) hrest hs hurl]
    | landed u =>
      have hoff : onSite u = false := by
        have := hx; unfold stratFails at this; rw [h] at this; exact this
      simp only [hoff, Bool.false_eq_true, if_false]
      rw [ih s l2 url lastE hrest hs hurl]

/-- Claim C7: navigation tries the four strategies in the fixed order
direct, script redirect, new tab, CDP command (the attempted trace is always
an initial segment of that order); it succeeds at the first strategy whose
resulting location matches the target domain, attempting none after it; and
when every strategy fails (raises, or lands off the target domain) all four
are attempted and the result is a failure carrying the last raised error. -/
theorem C7_force_nav :
    (∀ env : Strat → NavOutcome,
        (force_nav env).1 = stratOrder.take (force_nav env).1.length) ∧
    (∀ env : Strat → NavOutcome, (∀ s, stratFails env s) →
        force_nav env = (stratOrder, .error (lastErrOf env))) ∧
    (∀ (env : Strat → NavOutcome) (l1 : List Strat) (s : Strat) (l2 : List Strat)
        (url : String),
        stratOrder = l1 ++ s :: l2 → (∀ x ∈ l1, stratFails env x) →
        env s = .landed url → onSite url = true →
        force_nav env = (l1 ++ [s], .ok ())) := by
  refine ⟨?_, ?_, ?_⟩
  · intro env
    exact navLoop_trace_take env stratOrder none
  · intro env hfail
    exact navLoop_all_fail env stratOrder none (fun s _ => hfail s)
  · intro env l1 s l2 url horder hfail hs hurl
    unfold force_nav
    rw [horder]
    exact navLoop_first_success env l1 s l2 url none hfail hs hurl

/-- Witness for C7 at concrete environments. -/
theorem C7_witness :
    force_nav (fun _ => .raised "refused") = (stratOrder, .error (some "refused")) ∧
      force_nav (fun s => if s = .direct then .raised "refused"
          else .landed "https://mp3juice.co/") = ([.direct, .js], .ok ()) := by
  constructor
  · have h := C7_force_nav.2.1 (fun _ => .raised "refused")
      (fun s => by unfold stratFails; exact trivial)
    exact h.trans (by rfl)
  · have h := C7_force_nav.2.2 (fun s => if s = .direct then .raised "refused"
        else .landed "https://mp3juice.co/") [.direct] .js [.newTab, .cdp]
        "https://mp3juice.co/" rfl
        (fun x hx => by
          simp only [List.mem_singleton] at hx
          subst hx
          unfold stratFails
          simp)
        (by simp) (by decide)
    exact h.trans (by rfl)

/-- Claim C1, as stated, is false: an exception raised while handling a
query is not caught at the query boundary.  With two assigned queries where
query 0's handling raises, the worker's loop records no outcome at all (not
even a failed one for query 0) and never processes query 1 — the exception
escalates out of the loop. -/
theorem C1_counterexample :
    worker_loop (fun i => if i = 0 then .raises "timeout" else .noFile)
        [(0, "a"), (1, "b")] [] =
      ([], [], some "timeout") := rfl

/-- Claim C1 (amended): failures signalled without an exception (an empty
result list, no completed file, a failed move) are recorded per query and
the worker proceeds through all remaining queries with no escalated error;
but an exception raised at any query terminates the loop there: the
outcomes and directory state of the queries before it are kept, the
exception escalates, and the remaining queries are never processed. -/
theorem C1_worker_loop_amended :
    (∀ (env : Nat → StepEnv) (tasks : List (Nat × String)) (shared : List String),
        (∀ p ∈ tasks, ∀ e, env p.1 ≠ .raises e) →
        (worker_loop env tasks shared).2.2 = none ∧
          (worker_loop env tasks shared).1.map Outcome.idx = tasks.map Prod.fst) ∧
    (∀ (env : Nat → StepEnv) (pre : List (Nat × String)) (i : Nat) (q : String)
        (post : List (Nat × String)) (e : Err) (shared : List String),
        (∀ p ∈ pre, ∀ e', env p.1 ≠ .raises e') → env i = .raises e →
        worker_loop env (pre ++ (i, q) :: post) shared =
          ((worker_loop env pre shared).1, (worker_loop env pre shared).2.1, some e)) := by
  constructor
  · intro env tasks
    induction tasks with
    | nil => intro shared _; exact ⟨rfl, rfl⟩
    | cons p rest ih =>
      intro shared h
      obtain ⟨i, q⟩ := p
      have hi : ∀ e, env i ≠ .raises e := h (i, q) (List.mem_cons_self _ _)
      have hrest : ∀ p ∈ rest, ∀ e, env p.1 ≠ .raises e :=
        fun p hp => h p (List.mem_cons_of_mem _ hp)
      cases henv : env i with
      | raises e => exact absurd henv (hi e)
      | noResults =>
        obtain ⟨h1, h2⟩ := ih shared hrest
        simp [worker_loop, henv, Outcome.idx, h1, h2]
      | noFile =>
        obtain ⟨h1, h2⟩ := ih shared hrest
        simp [worker_loop, henv, Outcome.idx, h1, h2]
      | gotFile name moveFails =>
        cases moveFails with
        | true =>
          obtain ⟨h1, h2⟩ := ih shared hrest
          simp [worker_loop, henv, Outcome.idx, h1, h2]
        | false =>
          obtain ⟨h1, h2⟩ := ih (shared ++ [resolve_collision shared name]) hrest
          simp [worker_loop, henv, Outcome.idx, h1, h2]
  · intro env pre
    induction pre with
    | nil =>
      intro i q post e shared _ henv
      simp [worker_loop, henv]
    | cons p rest ih =>
      intro i q post e shared hfail henv
      obtain ⟨j, qj⟩ := p
      have hj : ∀ e', env j ≠ .raises e' := hfail (j, qj) (List.mem_cons_self _ _)
      have hrest : ∀ p ∈ rest, ∀ e', env p.1 ≠ .raises e' :=
        fun p hp => hfail p (List.mem_cons_of_mem _ hp)
      cases hcur : env j with
      | raises e' => exact absurd hcur (hj e')
      | noResults =>
        simp only [List.cons_append, worker_loop, hcur, List.append_eq]
        rw [ih i q post e shared hrest henv]
      | noFile =>
        simp only [List.cons_append, worker_loop, hcur, List.append_eq]
        rw [ih i q post e shared hrest henv]
      | gotFile name moveFails =>
        cases moveFails with
        | true =>
          simp only [List.cons_append, worker_loop, hcur, List.append_eq,
            eq_self_iff_true, if_true]
          rw [ih i q post e shared hrest henv]
        | false =>
          simp only [List.cons_append, worker_loop, hcur, List.append_eq,
            Bool.false_eq_true, if_false]
          rw [ih i q post e (shared ++ [resolve_collision shared name]) hrest henv]

/-- Witness for C1's amended theorem at concrete environments. -/
theorem C1_amended_witness :
    ((worker_loop (fun _ => .noFile) [(0, "a"), (1, "b")] []).2.2 = none ∧
        (worker_loop (fun _ => .noFile) [(0, "a"), (1, "b")] []).1.map Outcome.idx = [0, 1]) ∧
      worker_loop (fun i => if i = 1 then .raises "late" else .noFile)
          [(0, "a"), (1, "b"), (2, "c")] [] =
        ([.noFileDetected 0], [], some "late") := by
  constructor
  · have h := C1_worker_loop_amended.1 (fun _ => .noFile) [(0, "a"), (1, "b")] []
      (fun p _ e => by simp)
    exact ⟨h.1, h.2⟩
  · have h := C1_worker_loop_amended.2 (fun i => if i = 1 then .raises "late" else .noFile)
      [(0, "a")] 1 "b" [(2, "c")] "late" []
      (fun p hp e' => by
        simp only [List.mem_singleton] at hp
        subst hp
        simp)
      (by simp)
    exact h.trans (by decide)

/-- Claim C4, as stated, is false on its own example: a partial file named
`x.part` (appearing at t=1 with mtime at or after `after_timestamp = 0`, and
replaced by `x.mp3` at t=5, timeout 10 — times in tenths) is never
identified in phase 1, which only recognises `*.crdownload` entries; the
call still returns `x.mp3`, but only through the after-timeout fallback
scan, not through the claimed phase-1/phase-2 mechanism. -/
theorem C4_counterexample :
    fsPart 10 = [("x.part", 10)] ∧
      phase1Loop fsPart 0 100 101 0 = (none, 100) ∧
      wait_for_download fsPart 0 100 0 = some "x.mp3" := by
  exact ⟨by decide, by decide, by decide⟩

/-- Claim C4 (amended): partial files are those with the `.crdownload`
extension and the corresponding final file is the partial's name with that
extension stripped.  When `x.mp3.crdownload` appears at t=1 and is replaced
by `x.mp3` at t=5 (timeout 10, times in tenths), phase 1 identifies the
partial, phase 2 polls until it disappears, and the call returns `x.mp3`;
and whenever the directory stays empty for good, the overall timeout elapses
and the call returns not-found. -/
theorem C4_wait_for_download_amended :
    (phase1Loop fsCr 0 100 101 0 = (some ("x.mp3.crdownload", 10), 10) ∧
        wait_for_download fsCr 0 100 0 = some "x.mp3") ∧
      ∀ (fs : Nat → List Entry) (ts timeout start : Nat), (∀ t, fs t = []) →
        wait_for_download fs ts timeout start = none := by
  refine ⟨⟨by decide, by decide⟩, ?_⟩
  intro fs ts timeout start hfs
  have hphase1 : ∀ (fuel t : Nat), (phase1Loop fs ts (start + timeout) fuel t).1 = none := by
    intro fuel
    induction fuel with
    | zero => intro t; rfl
    | succ n ih =>
      intro t
      simp only [phase1Loop]
      split
      · rw [hfs t]
        exact ih (t + 2)
      · rfl
  have hcand := hphase1 (timeout + 1) start
  simp only [wait_for_download]
  rcases hp : phase1Loop fs ts (start + timeout) (timeout + 1) start with ⟨cand, texit⟩
  rw [hp] at hcand
  simp only at hcand
  subst hcand
  simp [fallbackScan, hfs]

/-- Witness for C4's amended theorem at a concrete empty directory. -/
theorem C4_amended_witness :
    wait_for_download (fun _ => []) 0 100 0 = none := by
  exact C4_wait_for_download_amended.2 (fun _ => []) 0 100 0 (fun _ => rfl)

/-- `fillBuckets` never changes the number of buckets. -/
theorem fillBuckets_length (n : Nat) :
    ∀ (ps : List (Nat × String)) (bs : List (List (Nat × String))),
      (fillBuckets n ps bs).length = bs.length := by
  intro ps
  induction ps with
  | nil => intro bs; rfl
  | cons p ps ih =>
    intro bs
    simp only [fillBuckets]
    rw [ih, List.length_set]

/-- Reading every bucket back in index order reproduces the bucket list. -/
theorem map_getD_range (bs : List (List (Nat × String))) :
    (List.range bs.length).map (fun w => bs.getD w []) = bs := by
  induction bs with
  | nil => rfl
  | cons b bs ih =>
    rw [List.length_cons, List.range_succ_eq_map, List.map_cons, List.map_map]
    have hcomp : ((fun w => (b :: bs).getD w []) ∘ Nat.succ) = fun w => bs.getD w [] := by
      funext w
      simp [Function.comp, List.getD_cons_succ]
    rw [List.getD_cons_zero, hcomp, ih]

/-- Each bucket of `fillBuckets` is its starting content followed by the
tasks whose index is congruent to the bucket number. -/
theorem fillBuckets_getD (n : Nat) (hn : 0 < n) :
    ∀ (ps : List (Nat × String)) (bs : List (List (Nat × String))), bs.length = n →
      ∀ w, w < n →
        (fillBuckets n ps bs).getD w [] =
          bs.getD w [] ++ ps.filter (fun p => p.1 % n == w) := by
  intro ps
  induction ps with
  | nil => intro bs _ w _; simp [fillBuckets]
  | cons p ps ih =>
    intro bs hlen w hw
    simp only [fillBuckets]
    rw [ih (bs.set (p.1 % n) (bs.getD (p.1 % n) [] ++ [p]))
      (by rw [List.length_set]; exact hlen) w hw]
    rw [List.filter_cons]
    by_cases hpw : p.1 % n = w
    · subst hpw
      have hlt : p.1 % n < bs.length := by rw [hlen]; exact Nat.mod_lt _ hn
      rw [List.getD_eq_getElem?_getD, List.getElem?_set_eq_of_lt _ hlt]
      simp [List.append_assoc]
    · have hbeq : (p.1 % n == w) = false := by simp [hpw]
      rw [hbeq]
      simp only [Bool.false_eq_true, if_false]
      rw [List.getD_eq_getElem?_getD, List.getElem?_set_ne hpw, ← List.getD_eq_getElem?_getD]

/-- The number of buckets is the concurrency. -/
theorem partition_length (n : Nat) (qs : List String) : (partition n qs).length = n := by
  unfold partition
  rw [fillBuckets_length, List.length_replicate]

/-- Bucket `w` of the partition holds exactly the enumerated queries whose
index is congruent to `w` modulo the concurrency, in input order. -/
theorem partition_getD (n : Nat) (hn : 0 < n) (qs : List String) (w : Nat) (hw : w < n) :
    (partition n qs).getD w [] = qs.enum.filter (fun p => p.1 % n == w) := by
  unfold partition
  rw [fillBuckets_getD n hn qs.enum (List.replicate n []) (List.length_replicate n []) w hw]
  have hrep : (List.replicate n ([] : List (Nat × String))).getD w [] = [] := by
    rw [List.getD_eq_getElem?_getD, List.getElem?_replicate]
    split <;> rfl
  rw [hrep, List.nil_append]

/-- The partition as a whole is the list of residue-class filters. -/
theorem partition_eq (n : Nat) (hn : 0 < n) (qs : List String) :
    partition n qs =
      (List.range n).map (fun w => qs.enum.filter (fun p => p.1 % n == w)) := by
  conv_lhs => rw [← map_getD_range (partition n qs)]
  rw [partition_length]
  exact List.map_congr_left fun w hw =>
    partition_getD n hn qs w (List.mem_range.mp hw)

theorem count_filter_eq {α : Type} [BEq α] [LawfulBEq α] (a : α) (l : List α) (p : α → Bool) :
    List.count a (l.filter p) = if p a = true then List.count a l else 0 := by
  induction l with
  | nil => simp
  | cons x l ih =>
    rw [List.filter_cons]
    by_cases hpx : p x = true
    · rw [if_pos hpx]
      by_cases hax : a = x
      · subst hax
        rw [List.count_cons_self, List.count_cons_self, ih, if_pos hpx, if_pos hpx]
      · rw [List.count_cons_of_ne hax, List.count_cons_of_ne hax]
        exact ih
    · rw [if_neg hpx, ih]
      by_cases hpa : p a = true
      · have hax : a ≠ x := fun h => hpx (h ▸ hpa)
        rw [List.count_cons_of_ne hax]
      · rw [if_neg hpa, if_neg hpa]

theorem sum_map_indicator (c : Nat) :
    ∀ n j : Nat, j < n →
      ((List.range n).map (fun w => if j = w then c else 0)).sum = c := by
  intro n
  induction n with
  | zero => intro j h; exact absurd h (Nat.not_lt_zero j)
  | succ m ih =>
    intro j hj
    rw [List.range_succ, List.map_append, List.sum_append]
    by_cases hjm : j = m
    · subst hjm
      have hz : ((List.range j).map (fun w => if j = w then c else 0)).sum = 0 := by
        apply List.sum_eq_zero
        intro x hx
        rcases List.mem_map.mp hx with ⟨w, hw, rfl⟩
        have hne : j ≠ w := by have := List.mem_range.mp hw; omega
        simp [hne]
      simp [hz]
    · have hjm' : j < m := by omega
      rw [ih j hjm']
      simp [hjm]

/-- Summing, over every residue class, the occurrences of `a` among the
elements sorted into that class recovers the occurrences of `a`. -/
theorem sum_map_count_filter_indicator {α : Type} [BEq α] [LawfulBEq α]
    (a : α) (l : List α) (g : α → Nat) (n : Nat) (hga : g a < n) :
    ((List.range n).map (fun w => List.count a (l.filter fun p => g p == w))).sum =
      List.count a l := by
  have hcomp : ∀ w ∈ List.range n,
      List.count a (l.filter fun p => g p == w) =
        if g a = w then List.count a l else 0 := by
    intro w _
    rw [count_filter_eq]
    by_cases h : g a = w
    · simp [h]
    · simp [h]
  rw [List.map_congr_left hcomp]
  exact sum_map_indicator (List.count a l) n (g a) hga

/-- Flattening the partition is a permutation of the enumerated queries. -/
theorem partition_flatten_perm (n : Nat) (hn : 0 < n) (qs : List String) :
    (partition n qs).flatten.Perm qs.enum := by
  rw [partition_eq n hn qs, List.perm_iff_count]
  intro a
  rw [@List.count_flatten (Nat × String) (@instBEqOfDecidableEq _ _) a
    ((List.range n).map fun w => qs.enum.filter fun p => p.1 % n == w)]
  rw [List.map_map]
  simp only [Function.comp_def]
  exact @sum_map_count_filter_indicator (Nat × String) instBEqOfDecidableEq
    (@instLawfulBEq (Nat × String) _) a qs.enum (fun p => p.1 % n) n (Nat.mod_lt _ hn)

/-- Claim C2: with concurrency `n > 0`, the query at position `i` lands in
bucket `i mod n`; every bucket preserves the input order (it is a sublist of
the enumerated input); the buckets together hold exactly the `L` input
queries, with no duplicates and no omissions (their concatenation is a
permutation of the duplicate-free enumerated input, of length `L`); and a
worker with an empty assignment is never spawned. -/
theorem C2_partition (n : Nat) (hn : 0 < n) (qs : List String) :
    (partition n qs).length = n ∧
    (∀ i, i < qs.length → (i, qs.getD i "") ∈ (partition n qs).getD (i % n) []) ∧
    (∀ w, w < n → ((partition n qs).getD w []).Sublist qs.enum) ∧
    (partition n qs).flatten.Perm qs.enum ∧
    (partition n qs).flatten.length = qs.length ∧
    qs.enum.Nodup ∧
    (∀ p ∈ spawned n qs, p.2 ≠ []) := by
  refine ⟨partition_length n qs, ?_, ?_, partition_flatten_perm n hn qs, ?_, ?_, ?_⟩
  · intro i hi
    rw [partition_getD n hn qs (i % n) (Nat.mod_lt _ hn)]
    rw [List.mem_filter]
    constructor
    · rw [List.getD_eq_getElem qs "" hi]
      exact List.mem_enum_iff_getElem?.mpr (List.getElem?_eq_getElem hi)
    · simp
  · intro w hw
    rw [partition_getD n hn qs w hw]
    exact List.filter_sublist _
  · rw [(partition_flatten_perm n hn qs).length_eq, List.enum_length]
  · exact List.Nodup.of_map Prod.fst (by rw [List.enum_map_fst]; exact List.nodup_range _)
  · intro p hp
    have h := (List.mem_filter.mp hp).2
    simpa using h

/-- Claim C3, as stated, is false: the orchestrator aggregates no
`{downloaded, failed, skipped}` counts.  On a concrete run of 7 queries at
concurrency 2 with one worker raising, the embedded `run` emits exactly the
total-queries line, one worker-error line and the final done line — no
summary-count message of any kind appears in its output, so no counts
summing to 7 are produced. -/
theorem C3_counterexample :
    (read_queries rows7).length = 7 ∧
      run 2 rows7 envsMixed [] = [.total 7 2, .workerError "boom", .done] ∧
      (run 2 rows7 envsMixed []).any Msg.isSummary = false := by
  exact ⟨by decide, by decide, by decide⟩

/-- Claim C3 (amended): for every run whose query list is non-empty, the
orchestrator reports the total query count upfront, reports each worker's
escalated exception as a worker-error line, and always ends with a final
done message even when workers raise; it aggregates no
`{downloaded, failed, skipped}` counts — no summary-count message ever
appears in its output. -/
theorem C3_run_amended (conc : Nat) (rows : List Row) (envs : Nat → WorkerEnv)
    (sharedInit : List String) (h : read_queries rows ≠ []) :
    (run conc rows envs sharedInit).getLast? = some .done ∧
      Msg.total (read_queries rows).length conc ∈ run conc rows envs sharedInit ∧
      (run conc rows envs sharedInit).any Msg.isSummary = false := by
  have hempty : (read_queries rows).isEmpty = false := by
    simp [List.isEmpty_iff, h]
  refine ⟨?_, ?_, ?_⟩
  · simp only [run, hempty, Bool.false_eq_true, if_false]
    exact List.getLast?_concat _
  · simp only [run, hempty, Bool.false_eq_true, if_false]
    exact List.mem_append.mpr (Or.inl (List.mem_append.mpr (Or.inl (List.mem_singleton.mpr rfl))))
  · simp only [run, hempty, Bool.false_eq_true, if_false, List.any_append, List.any_cons,
      List.any_nil, Msg.isSummary, Bool.or_false, Bool.false_or]
    rw [List.any_eq_false]
    intro m hm
    rcases List.mem_filterMap.mp hm with ⟨p, _, hfp⟩
    rcases Option.map_eq_some'.mp hfp with ⟨e, _, heq⟩
    rw [← heq]
    simp [Msg.isSummary]

/-- Witness for C3's amended theorem at the concrete 7-query run. -/
theorem C3_amended_witness :
    (run 2 rows7 envsMixed [] : List Msg).getLast? = some .done ∧
      Msg.total 7 2 ∈ run 2 rows7 envsMixed [] := by
  have h := C3_run_amended 2 rows7 envsMixed [] (by decide)
  refine ⟨h.1, ?_⟩
  have h2 := h.2.1
  rw [show (read_queries rows7).length = 7 from by decide] at h2
  exact h2

/-- Witness for C2 at concrete concurrency 3 and seven queries. -/
theorem C2_witness :
    (partition 3 ["q0", "q1", "q2", "q3", "q4", "q5", "q6"]).length = 3 ∧
      ((4 : Nat), ("q4" : String)) ∈
        (partition 3 ["q0", "q1", "q2", "q3", "q4", "q5", "q6"]).getD (4 % 3) [] := by
  have h := C2_partition 3 (by decide) ["q0", "q1", "q2", "q3", "q4", "q5", "q6"]
  refine ⟨h.1, ?_⟩
  have h4 := h.2.1 4 (by decide)
  simpa using h4

end Scrappy

